import Mathlib

/-!
Verification development for the Michelin tutoring application.

The definitions below shallowly embed the two retry loops of the Gemini
service module (`generateContentWithRetry` and the loop inside
`getSocraticResponse`), the error-message translation `handleApiError`,
the fence-stripping JSON parser `parseJsonFromResponse`, and the PDF
pagination loop of `exportToPdf`.  Randomness (jitter) and the remote
operation are modelled as oracle sequences indexed by the attempt number.
-/

set_option autoImplicit false

namespace Michelin

/-! ## String helpers: JS `String.prototype.includes` and friends -/

/-- Whether `pat` is an initial segment of `cs`. -/
def charsStartWith : List Char → List Char → Bool
  | [], _ => true
  | _ :: _, [] => false
  | p :: ps, c :: cs => p = c && charsStartWith ps cs

/-- Whether `pat` occurs contiguously inside `cs`. -/
def charsContain (pat : List Char) : List Char → Bool
  | [] => charsStartWith pat []
  | c :: cs => charsStartWith pat (c :: cs) || charsContain pat cs

/-- Model of JavaScript `s.includes(pat)`: substring containment. -/
def includes (s pat : String) : Bool :=
  charsContain pat.data s.data

/-- Drop leading whitespace characters. -/
def trimLeftChars : List Char → List Char
  | [] => []
  | c :: rest => if c.isWhitespace then trimLeftChars rest else c :: rest

/-- Model of JavaScript `s.trim()`: strip whitespace from both ends. -/
def jsTrim (s : String) : String :=
  String.mk ((trimLeftChars (trimLeftChars s.data).reverse).reverse)

/-- Model of JavaScript `s.startsWith(pre)`. -/
def strStartsWith (s pre : String) : Bool :=
  charsStartWith pre.data s.data

/-- Model of JavaScript `s.endsWith(suf)`. -/
def strEndsWith (s suf : String) : Bool :=
  charsStartWith suf.data.reverse s.data.reverse

/-! ## Retry executor: `generateContentWithRetry` (src/unnamed/part_003) -/

/-- Outcome of one invocation of the underlying operation
(`ai.models.generateContent` resp. `chat.sendMessage`): either a response
whose `.text` field is the given string (`""` models an absent/empty text),
or a thrown error with the given `toString()` message. -/
inductive GenOutcome where
  | ok (text : String)
  | threw (msg : String)
deriving DecidableEq, Repr

/-- The message of the error thrown by `generateContentWithRetry` when the
response parses but carries no text:
`throw new Error("AI returned an empty or invalid response.")`. -/
def emptyResponseMsg : String := "AI returned an empty or invalid response."

/-- The body of the `try` block of `generateContentWithRetry`: a response
with empty text is converted into a thrown error, any other response is a
success, a thrown error passes through. -/
def runAttempt : GenOutcome → Except String String
  | .ok text => if text = "" then .error emptyResponseMsg else .ok text
  | .threw m => .error m

/-- The retryability classification of `generateContentWithRetry`:
match against "500", "503", "429" or "Rpc failed" with
`errorMessage.includes`. -/
def isRetryableMsg (msg : String) : Bool :=
  includes msg "500" || includes msg "503" || includes msg "429" ||
    includes msg "Rpc failed"

/-- Result of the retry loop: the successful response text, or the thrown
error message (`none` models the unreachable `throw lastError` with
`lastError` still `undefined`). -/
inductive RetryResult where
  | success (text : String)
  | failure (lastError : Option String)
deriving DecidableEq, Repr

/-- Observable trace of one run of the retry loop: the 0-based indices of
the attempts that were made, the waits (in ms) performed between
consecutive attempts, and the final result. -/
structure RetryTrace where
  attempted : List Nat
  waits : List Nat
  result : RetryResult
deriving DecidableEq, Repr

/-- The `for (let i = 0; i < retries; i++)` loop of
`generateContentWithRetry`.  `i` is the loop index, `rem` the fuel
`retries - i`, `delay` the current base delay, `lastErr` the captured
`lastError`.  `attempts k` is the outcome of the `k`-th call of the
operation and `jitters k` the value of `Math.floor(Math.random() * 1000)`
drawn in round `k`. -/
def retryGo (attempts : Nat → GenOutcome) (jitters : Nat → Nat)
    (retries : Nat) : Nat → Nat → Nat → Option String → RetryTrace
  | _, 0, _, lastErr => ⟨[], [], .failure lastErr⟩
  | i, rem + 1, delay, _ =>
    match runAttempt (attempts i) with
    | .ok text => ⟨[i], [], .success text⟩
    | .error msg =>
      if isRetryableMsg msg ∧ i < retries - 1 then
        let t := retryGo attempts jitters retries (i + 1) rem (delay * 2)
          (some msg)
        ⟨i :: t.attempted, (delay + jitters i) :: t.waits, t.result⟩
      else
        ⟨[i], [], .failure (some msg)⟩

/-- `generateContentWithRetry` with its operation and jitter source made
explicit; the source defaults are `retries = 5`, `delay = 3000`. -/
def generateContentWithRetry (attempts : Nat → GenOutcome)
    (jitters : Nat → Nat) (retries : Nat) (delay : Nat) : RetryTrace :=
  retryGo attempts jitters retries 0 retries delay none

/-! ## `handleApiError` and the Socratic retry loop (src/unnamed/part_003) -/

/-- The overloaded-server message of `handleApiError` (AI 伺服器目前無法連線或發生內部錯誤，請稍後再試。). -/
def serverErrMsg : String := "AI 伺服器目前無法連線或發生內部錯誤，請稍後再試。"

/-- The bad-request message of `handleApiError` (錯誤 400). -/
def badRequestMsg : String :=
  "向 AI 伺服器發送的請求格式有誤 (錯誤 400)，這可能是由於輸入內容包含不安全或不支援的字詞。"

/-- The rate-limit message of `handleApiError` (您的請求頻率過高，請稍後再試。). -/
def rateLimitMsg : String := "您的請求頻率過高，請稍後再試。"

/-- The invalid-key message of `handleApiError` (API 金鑰無效或未設置). -/
def apiKeyMsg : String := "API 金鑰無效或未設置，請檢查您的環境設定。"

/-- The default user-facing message of `handleApiError`. -/
def genericErrMsg : String := "從 AI 伺服器獲取資料時發生錯誤。請稍後再試。"

/-- `handleApiError`: translates a raw error message into a user-facing
message by substring matching, in the branch order of the source. -/
def handleApiError (msg : String) : String :=
  if includes msg "500" || includes msg "503" || includes msg "Rpc failed" then
    serverErrMsg
  else if includes msg "400" then badRequestMsg
  else if includes msg "429" then rateLimitMsg
  else if includes msg "API key not valid" || includes msg "API_KEY" then
    apiKeyMsg
  else genericErrMsg

/-- The message of the error thrown inside `getSocraticResponse` when the
reply of the model has no text (AI 回應無效，未包含任何文字。). -/
def socraticEmptyMsg : String := "AI 回應無效，未包含任何文字。"

/-- The body of the `try` block of the loop in `getSocraticResponse`: an empty
reply text is converted into the `socraticEmptyMsg` error. -/
def runSocraticAttempt : GenOutcome → Except String String
  | .ok text => if text = "" then .error socraticEmptyMsg else .ok text
  | .threw m => .error m

/-- The retryability classification inside `getSocraticResponse`: the four
patterns of `isRetryableMsg` plus an `errorMessage.includes` match
against "AI 回應無效". -/
def socraticRetryable (msg : String) : Bool :=
  includes msg "500" || includes msg "503" || includes msg "429" ||
    includes msg "Rpc failed" || includes msg "AI 回應無效"

/-- Result of `getSocraticResponse`: the reply text, or the user-facing
message produced by `handleApiError` on the final error. -/
inductive SocraticResult where
  | success (text : String)
  | failure (userMsg : String)
deriving DecidableEq, Repr

/-- Observable trace of the retry loop inside `getSocraticResponse`. -/
structure SocraticTrace where
  attempted : List Nat
  waits : List Nat
  result : SocraticResult
deriving DecidableEq, Repr

/-- The `for (let i = 0; i < retries; i++)` loop of `getSocraticResponse`;
same shape as `retryGo`, but with the extended retryability test and final
errors routed through `handleApiError`. -/
def socraticGo (attempts : Nat → GenOutcome) (jitters : Nat → Nat)
    (retries : Nat) : Nat → Nat → Nat → Option String → SocraticTrace
  | _, 0, _, lastErr => ⟨[], [], .failure (handleApiError (lastErr.getD ""))⟩
  | i, rem + 1, delay, _ =>
    match runSocraticAttempt (attempts i) with
    | .ok text => ⟨[i], [], .success text⟩
    | .error msg =>
      if socraticRetryable msg ∧ i < retries - 1 then
        let t := socraticGo attempts jitters retries (i + 1) rem (delay * 2)
          (some msg)
        ⟨i :: t.attempted, (delay + jitters i) :: t.waits, t.result⟩
      else
        ⟨[i], [], .failure (handleApiError msg)⟩

/-- `getSocraticResponse` with its operation and jitter source explicit;
the source fixes `retries = 5` and `delay = 3000`. -/
def getSocraticResponse (attempts : Nat → GenOutcome)
    (jitters : Nat → Nat) : SocraticTrace :=
  socraticGo attempts jitters 5 0 5 3000 none

/-! ## JSON values and a model of `JSON.parse`

`JSON.parse` is a platform library at the boundary of the repository.  The
parser below models the subset of JSON the service exchanges (null,
booleans, integer numbers, strings with simple escapes, arrays, objects);
it is total via a character-count fuel and rejects any input with
unconsumed non-whitespace. -/

/-- JSON values. -/
inductive Json where
  | null
  | bool (b : Bool)
  | num (n : Int)
  | str (s : String)
  | arr (elems : List Json)
  | obj (fields : List (String × Json))

/-- The `Char` for a left curly brace. -/
def lbrace : Char := Char.ofNat 123

/-- The `Char` for a right curly brace. -/
def rbrace : Char := Char.ofNat 125

/-- Drop leading JSON whitespace. -/
def skipWs : List Char → List Char
  | [] => []
  | c :: cs =>
    if c = ' ' ∨ c = '\n' ∨ c = '\t' ∨ c = '\r' then skipWs cs else c :: cs

/-- Decode a JSON string escape character. -/
def escChar (c : Char) : Option Char :=
  if c = '"' then some '"'
  else if c = '\\' then some '\\'
  else if c = '/' then some '/'
  else if c = 'n' then some '\n'
  else if c = 't' then some '\t'
  else if c = 'r' then some '\r'
  else none

/-- Parse the body of a JSON string (the opening quote already consumed),
returning the content and the remainder after the closing quote. -/
def parseStringChars : List Char → Option (List Char × List Char)
  | [] => none
  | c :: cs =>
    if c = '"' then some ([], cs)
    else if c = '\\' then
      match cs with
      | [] => none
      | e :: cs2 =>
        match escChar e with
        | none => none
        | some d =>
          match parseStringChars cs2 with
          | none => none
          | some (content, rest) => some (d :: content, rest)
    else
      match parseStringChars cs with
      | none => none
      | some (content, rest) => some (c :: content, rest)

/-- Split a leading run of decimal digits. -/
def takeDigits : List Char → List Char × List Char
  | [] => ([], [])
  | c :: cs =>
    if c.isDigit then
      let p := takeDigits cs
      (c :: p.1, p.2)
    else ([], c :: cs)

/-- Interpret a digit run as a natural number. -/
def digitsToNat (ds : List Char) : Nat :=
  ds.foldl (fun n c => n * 10 + (c.toNat - 48)) 0

/-- Parse a JSON integer starting at the digit run `cs`; `neg` records a
consumed leading minus sign. -/
def parseNumFrom (neg : Bool) (cs : List Char) : Option (Json × List Char) :=
  let p := takeDigits cs
  if p.1 = [] then none
  else some (.num (if neg then -(digitsToNat p.1 : Int) else (digitsToNat p.1 : Int)), p.2)

/-- Parse one-or-more comma-separated array items using the value parser
`pv`, up to the closing bracket. -/
def parseArrItemsF (pv : List Char → Option (Json × List Char)) :
    Nat → List Char → Option (List Json × List Char)
  | 0, _ => none
  | fuel + 1, cs =>
    match pv cs with
    | none => none
    | some (v, rest) =>
      match skipWs rest with
      | [] => none
      | c :: rest2 =>
        if c = ',' then
          match parseArrItemsF pv fuel rest2 with
          | none => none
          | some (vs, rest3) => some (v :: vs, rest3)
        else if c = ']' then some ([v], rest2)
        else none

/-- Parse one-or-more comma-separated object fields using the value parser
`pv`, up to the closing brace. -/
def parseObjItemsF (pv : List Char → Option (Json × List Char)) :
    Nat → List Char → Option (List (String × Json) × List Char)
  | 0, _ => none
  | fuel + 1, cs =>
    match skipWs cs with
    | [] => none
    | c :: rest =>
      if c = '"' then
        match parseStringChars rest with
        | none => none
        | some (key, rest1) =>
          match skipWs rest1 with
          | [] => none
          | c2 :: rest2 =>
            if c2 = ':' then
              match pv rest2 with
              | none => none
              | some (v, rest3) =>
                match skipWs rest3 with
                | [] => none
                | c3 :: rest4 =>
                  if c3 = ',' then
                    match parseObjItemsF pv fuel rest4 with
                    | none => none
                    | some (fs, rest5) =>
                      some ((String.mk key, v) :: fs, rest5)
                  else if c3 = rbrace then
                    some ([(String.mk key, v)], rest4)
                  else none
            else none
      else none

/-- Parse one JSON value, returning it with the unconsumed remainder. -/
def parseVal : Nat → List Char → Option (Json × List Char)
  | 0, _ => none
  | fuel + 1, cs =>
    match skipWs cs with
    | [] => none
    | c :: rest =>
      if c = 'n' then
        if charsStartWith "ull".data rest then some (.null, rest.drop 3)
        else none
      else if c = 't' then
        if charsStartWith "rue".data rest then some (.bool true, rest.drop 3)
        else none
      else if c = 'f' then
        if charsStartWith "alse".data rest then some (.bool false, rest.drop 4)
        else none
      else if c = '"' then
        match parseStringChars rest with
        | none => none
        | some (content, rest1) => some (.str (String.mk content), rest1)
      else if c = '[' then
        match skipWs rest with
        | [] => none
        | c2 :: rest2 =>
          if c2 = ']' then some (.arr [], rest2)
          else
            match parseArrItemsF (parseVal fuel) fuel (c2 :: rest2) with
            | none => none
            | some (vs, rest3) => some (.arr vs, rest3)
      else if c = lbrace then
        match skipWs rest with
        | [] => none
        | c2 :: rest2 =>
          if c2 = rbrace then some (.obj [], rest2)
          else
            match parseObjItemsF (parseVal fuel) fuel (c2 :: rest2) with
            | none => none
            | some (fs, rest3) => some (.obj fs, rest3)
      else if c = '-' then parseNumFrom true rest
      else if c.isDigit then parseNumFrom false (c :: rest)
      else none

/-- Model of `JSON.parse`: succeeds only when the whole input is one JSON
value surrounded by whitespace. -/
def jsonParse (s : String) : Option Json :=
  match parseVal (s.length + 1) s.data with
  | none => none
  | some (v, rest) => if skipWs rest = [] then some v else none

/-! ## `parseJsonFromResponse` (src/unnamed/part_003 and
src/src/services/geminiService.ts, identical) -/

/-- The message of the error thrown when parsing fails:
AI 返回的資料格式不正確，無法解析。. -/
def malformedMsg : String := "AI 返回的資料格式不正確，無法解析。"

/-- Model of the first replace of the source, which deletes one leading
language-tagged fence token (with its optional newline) — and nothing
else — from the front of the trimmed text. -/
def stripLeadingJsonFence (s : String) : String :=
  if strStartsWith s "```json\n" then s.drop 8
  else if strStartsWith s "```json" then s.drop 7
  else s

/-- Model of the second replace of the source, which deletes one bare
fence token from the very end, and nothing else. -/
def stripTrailingFence (s : String) : String :=
  if strEndsWith s "```" then s.dropRight 3 else s

/-- The `cleanedText` local of `parseJsonFromResponse`. -/
def cleanedResponseText (text : String) : String :=
  stripTrailingFence (stripLeadingJsonFence (jsTrim text))

/-- `parseJsonFromResponse`: strip fences, then `JSON.parse`; a decode
failure becomes the `malformedMsg` error. -/
def parseJsonFromResponse (text : String) : Except String Json :=
  match jsonParse (cleanedResponseText text) with
  | some v => .ok v
  | none => .error malformedMsg

/-! ## PDF pagination (src/src/services/exportService.ts, `exportToPdf`)

A4 portrait in mm, `margin = 15`; the loop keeps a cursor `currentY`,
starts a new page when a block placed on a non-empty page would pass the
bottom margin, places the block image at `(margin, currentY)`, and
advances by the scaled height plus a 2 mm gap. -/

/-- `pdf.internal.pageSize.getWidth()` for A4 portrait, in mm. -/
def pdfWidthMM : ℚ := 210

/-- `pdf.internal.pageSize.getHeight()` for A4 portrait, in mm. -/
def pdfHeightMM : ℚ := 297

/-- `const margin = 15`. -/
def marginMM : ℚ := 15

/-- `const usableWidthMM = pdfWidth - (margin * 2)`. -/
def usableWidthMM : ℚ := pdfWidthMM - marginMM * 2

/-- `const usableHeightMM = pdfHeight - (margin * 2)`. -/
def usableHeightMM : ℚ := pdfHeightMM - marginMM * 2

/-- `const elementHeightMM = (canvas.height / canvas.width) * usableWidthMM`:
the rasterized bitmap of the block scaled to the usable page width. -/
def elementHeightMM (canvasWidth canvasHeight : ℚ) : ℚ :=
  canvasHeight / canvasWidth * usableWidthMM

/-- One placed block: 0-based page index, position of the top-left corner
of the image and its scaled height. -/
structure Placement where
  pageIndex : Nat
  x : ℚ
  y : ℚ
  h : ℚ
deriving DecidableEq, Repr

/-- One iteration of the placement loop of `exportToPdf` for a block of scaled
height `h`: possibly `pdf.addPage()` with `currentY = margin`, then
`pdf.addImage(..., margin, currentY, ...)` and
`currentY += elementHeightMM + 2`.  Returns the placement and the next
`(page, currentY)` state. -/
def placeBlock (page : Nat) (currentY h : ℚ) : Placement × Nat × ℚ :=
  if currentY > marginMM ∧ currentY + h > usableHeightMM + marginMM then
    (⟨page + 1, marginMM, marginMM, h⟩, page + 1, marginMM + h + 2)
  else
    (⟨page, marginMM, currentY, h⟩, page, currentY + h + 2)

/-- The placement loop over the scaled heights of the blocks. -/
def paginateGo : List ℚ → Nat → ℚ → List Placement
  | [], _, _ => []
  | h :: rest, page, y =>
    let s := placeBlock page y h
    s.1 :: paginateGo rest s.2.1 s.2.2

/-- The `(page, currentY)` state after the loop has consumed the given
heights. -/
def paginateState : List ℚ → Nat → ℚ → Nat × ℚ
  | [], page, y => (page, y)
  | h :: rest, page, y =>
    let s := placeBlock page y h
    paginateState rest s.2.1 s.2.2

/-- Pagination by `exportToPdf` of a block sequence (given by scaled
heights), starting on page 0 with `currentY = margin`. -/
def paginate (heights : List ℚ) : List Placement :=
  paginateGo heights 0 marginMM

/-- Outcome of a whole `exportToPdf` call: a saved file with its
placements, or the `alert` of the `catch` branch with no file saved. -/
inductive ExportOutcome where
  | saved (filename : String) (placements : List Placement)
  | alerted (msg : String)
deriving DecidableEq, Repr

/-- The alert text of the `catch` branch of `exportToPdf`:
無法導出為 PDF。請稍後再試。. -/
def exportErrMsg : String := "無法導出為 PDF。請稍後再試。"

/-- The body of the `for (const block of contentBlocks)` loop of `exportToPdf`:
rasterize (`html2canvas`, which may fail), scale, place.  A rasterization
failure (`none`) propagates out of the loop like the thrown exception. -/
def exportGo {α : Type} (rasterize : α → Option (ℚ × ℚ)) :
    List α → Nat → ℚ → List Placement → Option (List Placement)
  | [], _, _, acc => some acc.reverse
  | b :: rest, page, y, acc =>
    match rasterize b with
    | none => none
    | some wh =>
      let s := placeBlock page y (elementHeightMM wh.1 wh.2)
      exportGo rasterize rest s.2.1 s.2.2 (s.1 :: acc)

/-- `exportToPdf` over abstract blocks and an abstract rasterizer
returning pixel `(width, height)` or failing: the whole `try` block runs,
and `pdf.save` happens only if every block rasterized; any failure lands
in the `catch` branch, which only alerts — the partial document is
discarded. -/
def exportToPdf {α : Type} (rasterize : α → Option (ℚ × ℚ))
    (blocks : List α) (filename : String) : ExportOutcome :=
  match exportGo rasterize blocks 0 marginMM [] with
  | some ps => .saved filename ps
  | none => .alerted exportErrMsg

/-! ## Lemmas about the retry executor -/

/-- Unfolding of one iteration of the retry loop. -/
theorem retryGo_succ (attempts : Nat → GenOutcome) (jitters : Nat → Nat)
    (retries i rem delay : Nat) (lastErr : Option String) :
    retryGo attempts jitters retries i (rem + 1) delay lastErr =
      match runAttempt (attempts i) with
      | .ok text => ⟨[i], [], .success text⟩
      | .error msg =>
        if isRetryableMsg msg ∧ i < retries - 1 then
          let t := retryGo attempts jitters retries (i + 1) rem (delay * 2)
            (some msg)
          ⟨i :: t.attempted, (delay + jitters i) :: t.waits, t.result⟩
        else ⟨[i], [], .failure (some msg)⟩ := rfl

/-- When every attempt fails retryably, the loop visits every index from
`i` to `retries - 1`, waits the doubling base delay plus jitter each
round, and ends with the error of the final attempt. -/
theorem retryGo_all_retryable (attempts : Nat → GenOutcome) (jitters : Nat → Nat)
    (retries : Nat) (em : Nat → String)
    (hfail : ∀ k, k < retries →
      runAttempt (attempts k) = Except.error (em k) ∧ isRetryableMsg (em k) = true) :
    ∀ rem i delay lastErr, i + rem = retries → 1 ≤ rem →
      retryGo attempts jitters retries i rem delay lastErr =
        ⟨List.range' i rem,
         (List.range (rem - 1)).map (fun k => delay * 2 ^ k + jitters (i + k)),
         RetryResult.failure (some (em (retries - 1)))⟩ := by
  intro rem
  induction rem with
  | zero => intro i delay lastErr _ h1; omega
  | succ r ih =>
    intro i delay lastErr hsum _
    have hi : i < retries := by omega
    obtain ⟨herr, hretry⟩ := hfail i hi
    rw [retryGo_succ, herr]
    dsimp only
    cases r with
    | zero =>
      have hieq : retries - 1 = i := by omega
      rw [if_neg]
      · simp [hieq, List.range']
      · rintro ⟨-, hlt⟩; omega
    | succ s =>
      have hlt : i < retries - 1 := by omega
      rw [if_pos ⟨hretry, hlt⟩]
      rw [ih (i + 1) (delay * 2) (some (em i)) (by omega) (by omega)]
      simp only [RetryTrace.mk.injEq, Nat.succ_sub_one]
      refine ⟨by simp [List.range'], ?_, trivial⟩
      rw [List.range_succ_eq_map]
      simp only [List.map_cons, List.map_map, List.cons.injEq]
      refine ⟨by simp, List.map_congr_left ?_⟩
      intro k _
      have h1 : i + 1 + k = i + Nat.succ k := by omega
      simp only [Function.comp_apply, h1, pow_succ]
      ring

/-! ## Claim theorems: retry executor -/

/-- C1, counterexample to the claim as stated: in
`generateContentWithRetry` (with all 5 attempts remaining and the
operation returning a textless response forever), the empty-response
error is thrown after the very first attempt, with no wait and no
retry — the failure is not treated as retryable there. -/
theorem empty_response_not_retried_in_generateContentWithRetry :
    generateContentWithRetry (fun _ => .ok "") (fun _ => 0) 5 3000 =
      ⟨[0], [], RetryResult.failure (some emptyResponseMsg)⟩ := rfl

/-- C1, amended: a response that parses but carries no textual content is
a retryable failure only in the retry loop of `getSocraticResponse`,
which waits with backoff and retries until its five attempts are
exhausted; in `generateContentWithRetry` the empty-response error matches
no retryable pattern and is propagated immediately after one attempt. -/
theorem empty_response_retry_asymmetry (jitters : Nat → Nat) :
    (getSocraticResponse (fun _ => .ok "") jitters).attempted = [0, 1, 2, 3, 4] ∧
    (getSocraticResponse (fun _ => .ok "") jitters).waits =
      [3000 + jitters 0, 6000 + jitters 1, 12000 + jitters 2, 24000 + jitters 3] ∧
    (getSocraticResponse (fun _ => .ok "") jitters).result =
      SocraticResult.failure genericErrMsg ∧
    generateContentWithRetry (fun _ => .ok "") jitters 5 3000 =
      ⟨[0], [], RetryResult.failure (some emptyResponseMsg)⟩ :=
  ⟨rfl, rfl, rfl, rfl⟩

/-- C2: for every `maxAttempts = n ≥ 1`, if every attempt fails with a
retryable failure, `generateContentWithRetry` makes exactly the `n`
attempts `0, …, n - 1` and then propagates the error of the last
attempt. -/
theorem retry_exhausts_all_attempts (attempts : Nat → GenOutcome)
    (jitters : Nat → Nat) (n delay : Nat) (em : Nat → String) (hn : 1 ≤ n)
    (hfail : ∀ k, k < n →
      runAttempt (attempts k) = Except.error (em k) ∧ isRetryableMsg (em k) = true) :
    (generateContentWithRetry attempts jitters n delay).attempted = List.range n ∧
    (generateContentWithRetry attempts jitters n delay).result =
      RetryResult.failure (some (em (n - 1))) := by
  have h := retryGo_all_retryable attempts jitters n em hfail n 0 delay none (by omega) hn
  unfold generateContentWithRetry
  rw [h]
  exact ⟨by simp [List.range_eq_range'], rfl⟩

/-- Witness for C2 at `n = 3` with a permanently failing 503 operation. -/
theorem retry_exhausts_witness :
    (generateContentWithRetry (fun _ => .threw "http 503") (fun _ => 0) 3 3000).attempted =
      List.range 3 ∧
    (generateContentWithRetry (fun _ => .threw "http 503") (fun _ => 0) 3 3000).result =
      RetryResult.failure (some "http 503") :=
  retry_exhausts_all_attempts (fun _ => .threw "http 503") (fun _ => 0) 3 3000
    (fun _ => "http 503") (by omega) (fun k _ => ⟨rfl, rfl⟩)

/-- C3: if the first attempt fails with a non-retryable failure,
`generateContentWithRetry` makes exactly one attempt — no wait, no
retry — and propagates that failure, whatever `maxAttempts ≥ 1` is. -/
theorem nonretryable_single_attempt (attempts : Nat → GenOutcome)
    (jitters : Nat → Nat) (n delay : Nat) (msg : String) (hn : 1 ≤ n)
    (herr : runAttempt (attempts 0) = Except.error msg)
    (hnr : isRetryableMsg msg = false) :
    generateContentWithRetry attempts jitters n delay =
      ⟨[0], [], RetryResult.failure (some msg)⟩ := by
  obtain ⟨m, rfl⟩ : ∃ m, n = m + 1 := ⟨n - 1, by omega⟩
  unfold generateContentWithRetry
  rw [retryGo_succ, herr]
  dsimp only
  rw [if_neg]
  rintro ⟨hr, -⟩
  rw [hnr] at hr
  exact Bool.false_ne_true hr

/-- Witness for C3 at `n = 5` with a 400 failure on the first attempt. -/
theorem nonretryable_single_attempt_witness :
    generateContentWithRetry (fun _ => .threw "http 400") (fun _ => 0) 5 3000 =
      ⟨[0], [], RetryResult.failure (some "http 400")⟩ :=
  nonretryable_single_attempt (fun _ => .threw "http 400") (fun _ => 0) 5 3000 "http 400"
    (by omega) rfl rfl

/-- C4: under permanently retryable failures, the wait before attempt
`k + 1` (0-based index `k` in the wait list) is exactly
`initialDelay * 2 ^ k + jitter k` with every jitter below 1000 ms, the
mean delay (summed over the 1000 equiprobable jitter values) is
non-decreasing from round to round, and the loop of `getSocraticResponse`
waits by the same doubling formula from its fixed 3000 ms initial
delay. -/
theorem backoff_delay_formula (attempts : Nat → GenOutcome)
    (jitters : Nat → Nat) (n delay : Nat) (em : Nat → String) (hn : 1 ≤ n)
    (hfail : ∀ k, k < n →
      runAttempt (attempts k) = Except.error (em k) ∧ isRetryableMsg (em k) = true)
    (hjit : ∀ k, jitters k < 1000) :
    (generateContentWithRetry attempts jitters n delay).waits =
      (List.range (n - 1)).map (fun k => delay * 2 ^ k + jitters k) ∧
    (∀ k, jitters k < 1000) ∧
    (∀ k : Nat, (∑ j ∈ Finset.range 1000, (delay * 2 ^ k + j)) ≤
      ∑ j ∈ Finset.range 1000, (delay * 2 ^ (k + 1) + j)) ∧
    (getSocraticResponse (fun _ => .threw "http 503") jitters).waits =
      [3000 + jitters 0, 6000 + jitters 1, 12000 + jitters 2, 24000 + jitters 3] := by
  have h := retryGo_all_retryable attempts jitters n em hfail n 0 delay none (by omega) hn
  refine ⟨?_, hjit, ?_, rfl⟩
  · unfold generateContentWithRetry
    rw [h]
    exact List.map_congr_left (fun k _ => by rw [Nat.zero_add])
  · intro k
    refine Finset.sum_le_sum (fun j _ => ?_)
    have : delay * 2 ^ k ≤ delay * 2 ^ (k + 1) :=
      Nat.mul_le_mul_left delay (Nat.pow_le_pow_right (by omega) (by omega))
    omega

/-- Witness for C4 at `n = 4`, initial delay 3000, constant jitter 7. -/
theorem backoff_delay_formula_witness :
    (generateContentWithRetry (fun _ => .threw "http 429") (fun _ => 7) 4 3000).waits =
      (List.range 3).map (fun k => 3000 * 2 ^ k + 7) ∧
    (∀ k : Nat, (fun _ : Nat => 7) k < 1000) ∧
    (∀ k : Nat, (∑ j ∈ Finset.range 1000, (3000 * 2 ^ k + j)) ≤
      ∑ j ∈ Finset.range 1000, (3000 * 2 ^ (k + 1) + j)) ∧
    (getSocraticResponse (fun _ => .threw "http 503") (fun _ => 7)).waits =
      [3000 + 7, 6000 + 7, 12000 + 7, 24000 + 7] :=
  backoff_delay_formula (fun _ => .threw "http 429") (fun _ => 7) 4 3000
    (fun _ => "http 429") (by omega) (fun k _ => ⟨rfl, rfl⟩) (fun _ => by norm_num)

/-! ## Claim theorems: response parser -/

/-- C5: the three reference cases of `parseJsonFromResponse` — the
fenced payload and the bare payload both decode to the object with field
`a = 1`, while a non-JSON payload fails with the malformed-response
message, which differs from every network-error message. -/
theorem parse_reference_cases :
    parseJsonFromResponse "```json\n\x7b\"a\":1\x7d\n```" =
      Except.ok (Json.obj [("a", Json.num 1)]) ∧
    parseJsonFromResponse "\x7b\"a\":1\x7d" =
      Except.ok (Json.obj [("a", Json.num 1)]) ∧
    parseJsonFromResponse "not json" = Except.error malformedMsg ∧
    malformedMsg ≠ serverErrMsg ∧ malformedMsg ≠ genericErrMsg ∧
    malformedMsg ≠ rateLimitMsg :=
  ⟨rfl, rfl, rfl, by decide, by decide, by decide⟩

/-- C10: the fence stripping is asymmetric — a payload wrapped in a bare
(untagged) leading fence keeps that fence after cleaning, so it fails
with the malformed-response error even though the inner content alone is
valid JSON. -/
theorem bare_fence_not_unwrapped :
    cleanedResponseText "```\n\x7b\"a\":1\x7d\n```" = "```\n\x7b\"a\":1\x7d\n" ∧
    parseJsonFromResponse "```\n\x7b\"a\":1\x7d\n```" = Except.error malformedMsg ∧
    jsonParse "\x7b\"a\":1\x7d" = some (Json.obj [("a", Json.num 1)]) :=
  ⟨rfl, rfl, rfl⟩

/-! ## Lemmas about the paginator -/

/-- The usable height plus the top margin is the page height minus the
bottom margin — the overflow threshold of the loop. -/
theorem usable_plus_margin : usableHeightMM + marginMM = pdfHeightMM - marginMM := by
  norm_num [usableHeightMM, marginMM, pdfHeightMM]

/-- Every block image is placed at horizontal offset `margin`. -/
theorem placeBlock_x (p : Nat) (y h : ℚ) : (placeBlock p y h).1.x = marginMM := by
  unfold placeBlock; split <;> rfl

/-- Placement keeps the scaled height of the block unchanged. -/
theorem placeBlock_h (p : Nat) (y h : ℚ) : (placeBlock p y h).1.h = h := by
  unfold placeBlock; split <;> rfl

/-- After a placement the loop is on the page the block went to. -/
theorem placeBlock_page_eq (p : Nat) (y h : ℚ) :
    (placeBlock p y h).2.1 = (placeBlock p y h).1.pageIndex := by
  unfold placeBlock; split <;> rfl

/-- After a placement the cursor sits `h + 2` below the placed block. -/
theorem placeBlock_cursor (p : Nat) (y h : ℚ) :
    (placeBlock p y h).2.2 = (placeBlock p y h).1.y + h + 2 := by
  unfold placeBlock; split <;> rfl

/-- A placement never goes above the top margin. -/
theorem placeBlock_y_ge (p : Nat) (y h : ℚ) (hy : marginMM ≤ y) :
    marginMM ≤ (placeBlock p y h).1.y := by
  unfold placeBlock; split
  · exact le_refl _
  · exact hy

/-- A placement never goes to an earlier page. -/
theorem placeBlock_page_ge (p : Nat) (y h : ℚ) : p ≤ (placeBlock p y h).1.pageIndex := by
  unfold placeBlock; split
  · exact Nat.le_succ p
  · exact le_refl p

/-- One placement either starts at the top margin or fits above the
bottom margin. -/
theorem placeBlock_inv (p : Nat) (y h : ℚ) (hy : marginMM ≤ y) :
    (placeBlock p y h).1.y = marginMM ∨
      (placeBlock p y h).1.y + (placeBlock p y h).1.h ≤ pdfHeightMM - marginMM := by
  unfold placeBlock
  split
  · exact Or.inl rfl
  · rename_i hc
    rw [Classical.not_and_iff_or_not_not] at hc
    rcases hc with hc | hc
    · exact Or.inl (le_antisymm (not_lt.mp hc) hy)
    · refine Or.inr ?_
      have := not_lt.mp hc
      rw [← usable_plus_margin]
      simpa using this

/-- The pagination loop distributes over list concatenation through the
intermediate state. -/
theorem paginateGo_append (as bs : List ℚ) (p : Nat) (y : ℚ) :
    paginateGo (as ++ bs) p y =
      paginateGo as p y ++
        paginateGo bs (paginateState as p y).1 (paginateState as p y).2 := by
  induction as generalizing p y with
  | nil => rfl
  | cons h t ih =>
    simp only [List.cons_append, paginateGo, paginateState]
    exact congrArg _ (ih _ _)

/-- The loop emits one placement per block, carrying its scaled height:
no block is split or dropped. -/
theorem paginateGo_heights (hs : List ℚ) (p : Nat) (y : ℚ) :
    (paginateGo hs p y).map Placement.h = hs := by
  induction hs generalizing p y with
  | nil => rfl
  | cons h t ih => simp only [paginateGo, List.map_cons, ih, placeBlock_h]

/-- The loop emits exactly as many placements as blocks. -/
theorem paginateGo_length (hs : List ℚ) (p : Nat) (y : ℚ) :
    (paginateGo hs p y).length = hs.length := by
  have := congrArg List.length (paginateGo_heights hs p y)
  simpa using this

/-- With nonnegative heights the cursor never rises above the top margin. -/
theorem paginateState_cursor_ge (hs : List ℚ) :
    ∀ p : Nat, ∀ y : ℚ, (∀ h ∈ hs, 0 ≤ h) → marginMM ≤ y →
      marginMM ≤ (paginateState hs p y).2 := by
  induction hs with
  | nil => intro p y _ hy; exact hy
  | cons h t ih =>
    intro p y hnn hy
    have hh : (0 : ℚ) ≤ h := hnn h (by simp)
    have hys : marginMM ≤ (placeBlock p y h).2.2 := by
      rw [placeBlock_cursor]
      have := placeBlock_y_ge p y h hy
      linarith
    exact ih _ _ (fun x hx => hnn x (by simp [hx])) hys

/-- After at least one block the cursor is strictly below the top margin
(by at least the 2 mm gap): a page with content never has the cursor at
`margin`. -/
theorem paginateState_cursor_gt (hs : List ℚ) :
    ∀ p : Nat, ∀ y : ℚ, (∀ h ∈ hs, 0 ≤ h) → marginMM ≤ y → hs ≠ [] →
      marginMM + 2 ≤ (paginateState hs p y).2 := by
  induction hs with
  | nil => intro p y _ _ hne; exact absurd rfl hne
  | cons h t ih =>
    intro p y hnn hy _
    have hh : (0 : ℚ) ≤ h := hnn h (by simp)
    have hys : marginMM + 2 ≤ (placeBlock p y h).2.2 := by
      rw [placeBlock_cursor]
      have := placeBlock_y_ge p y h hy
      linarith
    by_cases ht : t = []
    · subst ht; exact hys
    · exact ih _ _ (fun x hx => hnn x (by simp [hx])) (le_trans (by linarith) hys) ht

/-- The final page index never precedes the starting page index. -/
theorem paginateState_page_ge (hs : List ℚ) :
    ∀ p : Nat, ∀ y : ℚ, p ≤ (paginateState hs p y).1 := by
  induction hs with
  | nil => intro p y; exact le_refl p
  | cons h t ih =>
    intro p y
    refine le_trans ?_ (ih (placeBlock p y h).2.1 (placeBlock p y h).2.2)
    rw [placeBlock_page_eq]
    exact placeBlock_page_ge p y h

/-- Every emitted placement is on or after the starting page. -/
theorem paginateGo_page_ge (hs : List ℚ) :
    ∀ p : Nat, ∀ y : ℚ, ∀ q ∈ paginateGo hs p y, p ≤ q.pageIndex := by
  induction hs with
  | nil => intro p y q hq; simp [paginateGo] at hq
  | cons h t ih =>
    intro p y q hq
    simp only [paginateGo, List.mem_cons] at hq
    rcases hq with rfl | hq
    · exact placeBlock_page_ge p y h
    · refine le_trans ?_ (ih _ _ q hq)
      rw [placeBlock_page_eq]
      exact placeBlock_page_ge p y h

/-- Every emitted placement is on or before the final page. -/
theorem paginateGo_page_le (hs : List ℚ) :
    ∀ p : Nat, ∀ y : ℚ, ∀ q ∈ paginateGo hs p y,
      q.pageIndex ≤ (paginateState hs p y).1 := by
  induction hs with
  | nil => intro p y q hq; simp [paginateGo] at hq
  | cons h t ih =>
    intro p y q hq
    simp only [paginateGo, List.mem_cons] at hq
    rcases hq with rfl | hq
    · rw [← placeBlock_page_eq]
      exact paginateState_page_ge t _ _
    · exact ih _ _ q hq

/-- The cursor invariant, lifted over the loop: with nonnegative heights
and a cursor at or below the top margin, every placement starts at the
top margin or fits above the bottom margin. -/
theorem paginateGo_inv (hs : List ℚ) :
    ∀ p : Nat, ∀ y : ℚ, (∀ h ∈ hs, 0 ≤ h) → marginMM ≤ y →
      ∀ q ∈ paginateGo hs p y,
        q.y = marginMM ∨ q.y + q.h ≤ pdfHeightMM - marginMM := by
  induction hs with
  | nil => intro p y _ _ q hq; simp [paginateGo] at hq
  | cons h t ih =>
    intro p y hnn hy q hq
    have hh : (0 : ℚ) ≤ h := hnn h (by simp)
    simp only [paginateGo, List.mem_cons] at hq
    rcases hq with rfl | hq
    · exact placeBlock_inv p y h hy
    · refine ih _ _ (fun x hx => hnn x (by simp [hx])) ?_ q hq
      rw [placeBlock_cursor]
      have := placeBlock_y_ge p y h hy
      linarith

/-- A placement starting from the page of a previous placement stays on
that page, or opens the next page with the cursor reset to the top
margin. -/
theorem placeBlock_rel (q : Placement) (y2 h2 : ℚ) :
    (placeBlock q.pageIndex y2 h2).1.pageIndex = q.pageIndex ∨
      ((placeBlock q.pageIndex y2 h2).1.pageIndex = q.pageIndex + 1 ∧
        (placeBlock q.pageIndex y2 h2).1.y = marginMM) := by
  unfold placeBlock
  split
  · exact Or.inr ⟨rfl, rfl⟩
  · exact Or.inl rfl

/-- Consecutive placements are chained: the page index is kept or
incremented by one, and each new page starts at the top margin. -/
theorem paginateGo_chain (hs : List ℚ) :
    ∀ p : Nat, ∀ y : ℚ,
      List.Chain' (fun a b => b.pageIndex = a.pageIndex ∨
        (b.pageIndex = a.pageIndex + 1 ∧ b.y = marginMM)) (paginateGo hs p y) := by
  induction hs with
  | nil => intro p y; exact List.chain'_nil
  | cons h t ih =>
    intro p y
    rw [paginateGo, List.chain'_cons']
    refine ⟨?_, ih _ _⟩
    intro b hb
    cases t with
    | nil => simp [paginateGo] at hb
    | cons h2 t2 =>
      simp only [paginateGo, List.head?_cons, Option.mem_def, Option.some.injEq] at hb
      subst hb
      rw [placeBlock_page_eq]
      exact placeBlock_rel (placeBlock p y h).1 _ _

/-- An oversized block is always placed at the top margin. -/
theorem placeBlock_oversized_y (p : Nat) (y h : ℚ) (hy : marginMM ≤ y)
    (hover : usableHeightMM < h) : (placeBlock p y h).1.y = marginMM := by
  unfold placeBlock
  split
  · rfl
  · rename_i hc
    rcases eq_or_lt_of_le hy with heq | hlt
    · exact heq.symm
    · exact absurd ⟨hlt, by linarith⟩ hc

/-- Starting from a cursor that is already past the bottom margin, every
further block goes to a strictly later page. -/
theorem paginateGo_after_oversized (bs : List ℚ) (p2 : Nat) (y2 : ℚ)
    (hnn : ∀ h ∈ bs, 0 ≤ h) (hy2 : marginMM < y2)
    (hy2b : usableHeightMM + marginMM < y2) :
    ∀ r ∈ paginateGo bs p2 y2, p2 < r.pageIndex := by
  cases bs with
  | nil => intro r hr; simp [paginateGo] at hr
  | cons h2 t2 =>
    intro r hr
    simp only [paginateGo, List.mem_cons] at hr
    have hh2 : (0 : ℚ) ≤ h2 := hnn h2 (by simp)
    have hpg : (placeBlock p2 y2 h2).1.pageIndex = p2 + 1 := by
      unfold placeBlock
      rw [if_pos ⟨hy2, by linarith⟩]
    rcases hr with rfl | hr
    · omega
    · have h1 := paginateGo_page_ge t2 (placeBlock p2 y2 h2).2.1
        (placeBlock p2 y2 h2).2.2 r hr
      rw [placeBlock_page_eq, hpg] at h1
      omega

/-! ## Claim theorems: paginator and export -/

/-- C6: three blocks of scaled height 100 mm paginate to exactly two
pages — blocks one and two at 15 mm and 117 mm on page 0, block three
alone at the top of page 1. -/
theorem three_blocks_two_pages :
    paginate [100, 100, 100] =
      [⟨0, 15, 15, 100⟩, ⟨0, 15, 117, 100⟩, ⟨1, 15, 15, 100⟩] := by
  norm_num [paginate, paginateGo, placeBlock, marginMM, usableHeightMM, pdfHeightMM]

/-- C7: every block reappears unsplit with its full height, and a block
whose scaled height exceeds the usable page height is placed at
`(margin, margin)` on a page no other block shares. -/
theorem oversized_block_alone (heights : List ℚ) (b : ℚ) (j : Nat)
    (hnn : ∀ h ∈ heights, 0 ≤ h) (hb : heights[j]? = some b)
    (hover : usableHeightMM < b) :
    (paginate heights).map Placement.h = heights ∧
    ∃ q : Placement, (paginate heights)[j]? = some q ∧
      q.x = marginMM ∧ q.y = marginMM ∧ q.h = b ∧
      ∀ i : Nat, ∀ r : Placement, i ≠ j → (paginate heights)[i]? = some r →
        r.pageIndex ≠ q.pageIndex := by
  have hj : j < heights.length := by
    by_contra hc
    rw [List.getElem?_eq_none (le_of_not_lt hc)] at hb
    exact Option.noConfusion hb
  have hbj : heights[j] = b := by
    have h1 := List.getElem?_eq_getElem hj
    rw [hb] at h1
    exact (Option.some_inj.mp h1).symm
  have hsplit : heights = heights.take j ++ b :: heights.drop (j + 1) := by
    conv_lhs => rw [← List.take_append_drop j heights]
    rw [List.drop_eq_getElem_cons hj, hbj]
  have hnnas : ∀ h ∈ heights.take j, 0 ≤ h :=
    fun h hh => hnn h (List.mem_of_mem_take hh)
  have hnnbs : ∀ h ∈ heights.drop (j + 1), 0 ≤ h :=
    fun h hh => hnn h (List.mem_of_mem_drop hh)
  have hpag : paginate heights =
      paginateGo (heights.take j) 0 marginMM ++
        paginateGo (b :: heights.drop (j + 1))
          (paginateState (heights.take j) 0 marginMM).1
          (paginateState (heights.take j) 0 marginMM).2 := by
    unfold paginate
    conv_lhs => rw [hsplit]
    exact paginateGo_append _ _ _ _
  have hlen1 : (paginateGo (heights.take j) 0 marginMM).length = j := by
    rw [paginateGo_length, List.length_take]
    omega
  have hy1 : marginMM ≤ (paginateState (heights.take j) 0 marginMM).2 :=
    paginateState_cursor_ge _ 0 marginMM hnnas (le_refl _)
  have hcons : paginateGo (b :: heights.drop (j + 1))
      (paginateState (heights.take j) 0 marginMM).1
      (paginateState (heights.take j) 0 marginMM).2 =
    (placeBlock (paginateState (heights.take j) 0 marginMM).1
        (paginateState (heights.take j) 0 marginMM).2 b).1 ::
      paginateGo (heights.drop (j + 1))
        (placeBlock (paginateState (heights.take j) 0 marginMM).1
          (paginateState (heights.take j) 0 marginMM).2 b).2.1
        (placeBlock (paginateState (heights.take j) 0 marginMM).1
          (paginateState (heights.take j) 0 marginMM).2 b).2.2 := rfl
  have hq0y : (placeBlock (paginateState (heights.take j) 0 marginMM).1
      (paginateState (heights.take j) 0 marginMM).2 b).1.y = marginMM :=
    placeBlock_oversized_y _ _ b hy1 hover
  have husable : (0 : ℚ) < usableHeightMM := by
    norm_num [usableHeightMM, pdfHeightMM, marginMM]
  have hy2 : (placeBlock (paginateState (heights.take j) 0 marginMM).1
      (paginateState (heights.take j) 0 marginMM).2 b).2.2 = marginMM + b + 2 := by
    rw [placeBlock_cursor, hq0y]
  refine ⟨by rw [paginate]; exact paginateGo_heights heights 0 marginMM, ?_⟩
  refine ⟨(placeBlock (paginateState (heights.take j) 0 marginMM).1
      (paginateState (heights.take j) 0 marginMM).2 b).1, ?_, placeBlock_x _ _ _,
      hq0y, placeBlock_h _ _ _, ?_⟩
  · rw [hpag, List.getElem?_append_right (le_of_eq hlen1), hlen1, Nat.sub_self,
      hcons]
    exact List.getElem?_cons_zero
  · intro i r hij hr
    rcases Nat.lt_or_ge i j with hilt | hige
    · have hasne : heights.take j ≠ [] := by
        intro hnil
        rw [hnil] at hlen1
        simp only [paginateGo, List.length_nil] at hlen1
        omega
      have hy1' : marginMM + 2 ≤ (paginateState (heights.take j) 0 marginMM).2 :=
        paginateState_cursor_gt _ 0 marginMM hnnas (le_refl _) hasne
      have hq0p : (placeBlock (paginateState (heights.take j) 0 marginMM).1
          (paginateState (heights.take j) 0 marginMM).2 b).1.pageIndex =
          (paginateState (heights.take j) 0 marginMM).1 + 1 := by
        unfold placeBlock
        rw [if_pos ⟨by linarith, by linarith⟩]
      rw [hpag, List.getElem?_append] at hr
      rw [if_pos (by omega)] at hr
      have hle := paginateGo_page_le (heights.take j) 0 marginMM r
        (List.getElem?_mem hr)
      omega
    · rw [hpag, List.getElem?_append_right (by omega)] at hr
      rw [hlen1] at hr
      obtain ⟨d, hd⟩ : ∃ d, i - j = d + 1 := ⟨i - j - 1, by omega⟩
      rw [hd, hcons, List.getElem?_cons_succ] at hr
      have hafter := paginateGo_after_oversized (heights.drop (j + 1))
        (placeBlock (paginateState (heights.take j) 0 marginMM).1
          (paginateState (heights.take j) 0 marginMM).2 b).2.1
        (placeBlock (paginateState (heights.take j) 0 marginMM).1
          (paginateState (heights.take j) 0 marginMM).2 b).2.2
        hnnbs (by rw [hy2]; linarith) (by rw [hy2]; linarith) r
        (List.getElem?_mem hr)
      rw [placeBlock_page_eq] at hafter
      omega

/-- Witness for C7: a single 300 mm block on the 267 mm usable page. -/
theorem oversized_block_alone_witness :
    (paginate [300]).map Placement.h = [300] ∧
    ∃ q : Placement, (paginate [300])[0]? = some q ∧
      q.x = marginMM ∧ q.y = marginMM ∧ q.h = 300 ∧
      ∀ i : Nat, ∀ r : Placement, i ≠ 0 → (paginate [300])[i]? = some r →
        r.pageIndex ≠ q.pageIndex :=
  oversized_block_alone [300] 300 0 (by norm_num) rfl
    (by norm_num [usableHeightMM, pdfHeightMM, marginMM])

/-- C8: at every placement the block either starts at the top margin
(fresh page) or ends above the bottom margin, and page transitions only
ever advance by one page with the cursor reset to the top margin. -/
theorem pagination_cursor_invariant (heights : List ℚ)
    (hnn : ∀ h ∈ heights, 0 ≤ h) :
    (∀ q ∈ paginate heights, q.y = marginMM ∨ q.y + q.h ≤ pdfHeightMM - marginMM) ∧
    List.Chain' (fun a b => b.pageIndex = a.pageIndex ∨
      (b.pageIndex = a.pageIndex + 1 ∧ b.y = marginMM)) (paginate heights) :=
  ⟨paginateGo_inv heights 0 marginMM hnn (le_refl _),
    paginateGo_chain heights 0 marginMM⟩

/-- Witness for C8 on the heights 250 mm and 100 mm. -/
theorem pagination_cursor_invariant_witness :
    (∀ q ∈ paginate [250, 100], q.y = marginMM ∨ q.y + q.h ≤ pdfHeightMM - marginMM) ∧
    List.Chain' (fun a b => b.pageIndex = a.pageIndex ∨
      (b.pageIndex = a.pageIndex + 1 ∧ b.y = marginMM)) (paginate [250, 100]) :=
  pagination_cursor_invariant [250, 100] (by norm_num)

/-- A rasterization failure anywhere in the block list makes the export
loop fail as a whole. -/
theorem exportGo_none {α : Type} (rasterize : α → Option (ℚ × ℚ)) (b : α)
    (hfail : rasterize b = none) :
    ∀ blocks : List α, b ∈ blocks → ∀ p : Nat, ∀ y : ℚ, ∀ acc : List Placement,
      exportGo rasterize blocks p y acc = none := by
  intro blocks
  induction blocks with
  | nil => intro hb; simp at hb
  | cons b0 rest ih =>
    intro hb p y acc
    rcases List.mem_cons.mp hb with rfl | hb
    · simp [exportGo, hfail]
    · cases hr : rasterize b0 with
      | none => simp [exportGo, hr]
      | some wh => simp only [exportGo, hr]; exact ih hb _ _ _

/-- C9: if rasterization of any block fails, the whole export aborts into
the alert branch — no file is saved and the partial document is
discarded. -/
theorem raster_failure_aborts_export {α : Type} (rasterize : α → Option (ℚ × ℚ))
    (blocks : List α) (filename : String) (b : α) (hb : b ∈ blocks)
    (hfail : rasterize b = none) :
    exportToPdf rasterize blocks filename = ExportOutcome.alerted exportErrMsg := by
  unfold exportToPdf
  rw [exportGo_none rasterize b hfail blocks hb 0 marginMM []]

/-- Witness for C9 with a one-block document whose rasterization fails. -/
theorem raster_failure_aborts_export_witness :
    exportToPdf (fun _ : Unit => (none : Option (ℚ × ℚ))) [()] "summary" =
      ExportOutcome.alerted exportErrMsg :=
  raster_failure_aborts_export (fun _ => none) [()] "summary" () (by simp) rfl

end Michelin
